import Mathlib

/-!
Verification of the `zd-refresh-reputation` pallet
(`src/pallets/refresh-reputation/src/lib.rs`).

The pallet is shallowly embedded as pure Lean functions over an explicit
state.  Machine integers are modelled as `Nat` together with the bounds of
the source types (`Balance = u128`, `count : u32`); checked arithmetic
returns `Option Nat`, saturating arithmetic clamps at the maximum value.

Storage (`StorageMap` / `StorageDoubleMap`, both `ValueQuery`) is modelled
as association lists; a read of an absent key yields the `Default` value,
exactly as `ValueQuery` does.

frame's `StorageMap::mutate(key, f)` passes the stored value to the closure
by mutable reference, lets the closure return an arbitrary result `R`, and
writes the (possibly mutated) value back.  We embed a Rust closure of type
`FnOnce(&mut V) -> R` as a Lean function `V -> V × R`: the first component
is the final value of the mutable reference, the second the returned `R`.
This keeps the embedding faithful for the two call sites in the source
whose closures build a fresh value and return it *without assigning through
the reference* (`Records::mutate` in `do_refresh`, `Payrolls::mutate` in
`start`): there the first component is the unchanged input.

External collaborators (the Ledger, Reputation, Trust-graph and Challenge
ports, and the `zd_primitives` fee-split policy) are out of scope of the
core and are modelled as an abstract environment `Env E` acting on an
opaque external state `E`; a port call that fails leaves `E` unchanged and
its `DispatchError` is propagated unchanged.

Storage writes are performed eagerly, as the source does; an operation that
fails after having written returns the partially mutated state together
with its error (the pallet targets a frame revision without automatic
transactional rollback, and contains no rollback logic of its own).
-/

/-- `u128::MAX + 1`:  `Balance` in the source is `u128`. -/
def BMAX : Nat := 2 ^ 128

/-- `u32::MAX + 1`: `Payroll.count` in the source is `u32`. -/
def U32MAX : Nat := 2 ^ 32

/-- `u128::checked_add`. -/
def checkedAddB (a b : Nat) : Option Nat :=
  if a + b < BMAX then some (a + b) else none

/-- `u128::checked_mul`. -/
def checkedMulB (a b : Nat) : Option Nat :=
  if a * b < BMAX then some (a * b) else none

/-- `u32::checked_add`. -/
def checkedAdd32 (a b : Nat) : Option Nat :=
  if a + b < U32MAX then some (a + b) else none

/-- `u128::saturating_mul`. -/
def satMulB (a b : Nat) : Nat := min (a * b) (BMAX - 1)

/-- `u128::saturating_add`. -/
def satAddB (a b : Nat) : Nat := min (a + b) (BMAX - 1)

/-- `Perbill::mul_floor`: `r` parts per billion of `b`, rounded down. -/
def perbillMulFloor (r b : Nat) : Nat := r * b / 1000000000

/-- `Record<BlockNumber, Balance>` (lib.rs lines 24-28).  `Default` is
`{ update_at := 0, fee := 0 }`. -/
structure Record where
  update_at : Nat
  fee : Nat
deriving DecidableEq, Repr

/-- `Payroll<Balance>` (lib.rs lines 30-34).  `Default` is
`{ count := 0, total_fee := 0 }`. -/
structure Payroll where
  count : Nat
  total_fee : Nat
deriving DecidableEq, Repr

/-- The pallet `Config` constants used by the embedded code. -/
structure Config where
  ShareRatio : Nat
  FeeRation : Nat
  SelfRation : Nat
  MaxUpdateCount : Nat
  UpdateStakingAmount : Nat
  ConfirmationPeriod : Nat
deriving Repr

/-- `Error<T>` (lib.rs lines 103-119), together with `External` for an
arbitrary `DispatchError` surfaced by a collaborator port. -/
inductive Err where
  | QuantityLimitReached
  | NoUpdatesAllowed
  | ErrorFee
  | ChallengeTimeout
  | Overflow
  | FailedProxy
  | ChallengeNotClaimed
  | External (code : Nat)
deriving DecidableEq, Repr

/-- The collaborator ports (Reputation, TrustBase, ChallengeInfo, the
multi-currency ledger) and the `zd_primitives::fee::ProxyFee` policy,
acting on an opaque external state `E`.  Accounts are `Nat`. -/
structure Env (E : Type) where
  repNewRound : E → Except Err E
  checkUpdateStatus : E → Bool
  endRefresh : E → Except Err E
  getLastRefreshAt : E → Nat
  getLastUpdateAt : E → Nat
  setLastRefreshAt : E → E
  refreshReputation : Nat × Nat → E → Except Err E
  isAllHarvest : E → Bool
  getTrustOld : E → Nat → List Nat
  staking : Nat → Nat → E → Except Err E
  release : Nat → Nat → E → Except Err E
  socialBalance : E → Nat → Nat
  batShare : Nat → List Nat → Nat → E → Except Err E
  thaw : Nat → Nat → E → Except Err E
  socialStaking : Nat → Nat → E → Except Err E
  isAllowedProxy : Nat → Nat → Bool
  withFee : Nat → Nat × Nat
  checkedWithFee : Nat → Nat → Nat → Option (Nat × Nat)

/-- The pallet storage plus the external state: `Payrolls` is a
`StorageMap AccountId Payroll` and `Records` a
`StorageDoubleMap AccountId AccountId Record`, both `ValueQuery`. -/
structure St (E : Type) where
  ext : E
  payrolls : List (Nat × Payroll)
  records : List ((Nat × Nat) × Record)
deriving DecidableEq, Repr

/-- Association-list read with default (`ValueQuery` get). -/
def aGet {κ ν : Type} [BEq κ] (m : List (κ × ν)) (k : κ) (d : ν) : ν :=
  (m.lookup k).getD d

/-- Remove the entry for a key. -/
def aErase {κ ν : Type} [BEq κ] (m : List (κ × ν)) (k : κ) : List (κ × ν) :=
  m.filter (fun e => !(e.1 == k))

/-- Insert-or-replace the entry for a key. -/
def aSet {κ ν : Type} [BEq κ] (m : List (κ × ν)) (k : κ) (v : ν) : List (κ × ν) :=
  (k, v) :: aErase m k

/-- `Payrolls` get (default on absence). -/
def pGet (ps : List (Nat × Payroll)) (k : Nat) : Payroll := aGet ps k ⟨0, 0⟩

/-- `Records` lookup (presence-aware). -/
def rLookup (rs : List ((Nat × Nat) × Record)) (k₁ k₂ : Nat) : Option Record :=
  rs.lookup (k₁, k₂)

/-- `Records` get with `ValueQuery` default. -/
def rGetD (rs : List ((Nat × Nat) × Record)) (k₁ k₂ : Nat) : Record :=
  (rLookup rs k₁ k₂).getD ⟨0, 0⟩

/-- Remove one `Records` entry. -/
def rErase (rs : List ((Nat × Nat) × Record)) (k₁ k₂ : Nat) :
    List ((Nat × Nat) × Record) := aErase rs (k₁, k₂)

/-- `Records::remove_prefix(k₁)`: drop every entry under first key `k₁`. -/
def rRemoveAll (rs : List ((Nat × Nat) × Record)) (k₁ : Nat) :
    List ((Nat × Nat) × Record) := rs.filter (fun e => !(e.1.1 == k₁))

/-- frame `StorageMap::mutate` on `Payrolls` (`ValueQuery`): read the value
(default when absent), run the closure — embedded as
`Payroll → Payroll × α`, final reference value paired with the closure's
return — and write the final reference value back.  The closure's return
value is handed to the caller. -/
def pMutate (ps : List (Nat × Payroll)) (k : Nat)
    (f : Payroll → Payroll × α) : List (Nat × Payroll) × α :=
  let v := pGet ps k
  let (v', r) := f v
  (aSet ps k v', r)

/-- frame `StorageDoubleMap::mutate` on `Records`, same embedding. -/
def rMutate (rs : List ((Nat × Nat) × Record)) (k₁ k₂ : Nat)
    (f : Record → Record × α) : List ((Nat × Nat) × Record) × α :=
  let v := rGetD rs k₁ k₂
  let (v', r) := f v
  (aSet rs (k₁, k₂) v', r)

/-- frame `StorageMap::try_mutate` on `Payrolls`: on `Ok` the final
reference value is written back, on `Err` nothing is written. -/
def pTryMutate (ps : List (Nat × Payroll)) (k : Nat)
    (f : Payroll → Except Err (Payroll × α)) :
    Except Err (List (Nat × Payroll) × α) :=
  match f (pGet ps k) with
  | .error e => .error e
  | .ok (v', r) => .ok (aSet ps k v', r)

/-- `Payroll::total_amount` (lib.rs lines 36-42):
`UpdateStakingAmount.saturating_mul(count).saturating_add(total_fee)`. -/
def totalAmount (cfg : Config) (pr : Payroll) : Nat :=
  satAddB (satMulB cfg.UpdateStakingAmount pr.count) pr.total_fee

/-- `Pallet::share` (lib.rs lines 288-307): distribute `ShareRatio` of the
target's social balance over its old trust set, thaw `SelfRation` of it
back to the target, social-stake `FeeRation` of it and return that amount
as the fee.  Each ledger call may fail; failure propagates. -/
def share {E : Type} (cfg : Config) (ev : Env E) (user : Nat) (s : St E) :
    Except (Err × St E) (Nat × St E) :=
  let targets := ev.getTrustOld s.ext user
  let total_share := ev.socialBalance s.ext user
  match ev.batShare user targets (perbillMulFloor cfg.ShareRatio total_share) s.ext with
  | .error e => .error (e, s)
  | .ok e1 =>
    match ev.thaw user (perbillMulFloor cfg.SelfRation total_share) e1 with
    | .error e => .error (e, { s with ext := e1 })
    | .ok e2 =>
      let actor_amount := perbillMulFloor cfg.FeeRation total_share
      match ev.socialStaking user actor_amount e2 with
      | .error e => .error (e, { s with ext := e2 })
      | .ok e3 => .ok (actor_amount, { s with ext := e3 })

/-- `Pallet::do_refresh` (lib.rs lines 258-269): apply the score through the
Reputation port, compute the fee via `share`, then call
`Records::mutate(&pathfinder, &who, |_| Record { update_at, fee })`.  The
Rust closure ignores its `&mut` argument and returns the freshly built
`Record` as `mutate`'s (discarded) result, so the embedded closure leaves
the reference value unchanged and yields the new record as the discarded
second component. -/
def do_refresh {E : Type} (cfg : Config) (ev : Env E) (pathfinder : Nat)
    (user_score : Nat × Nat) (update_at : Nat) (s : St E) :
    Except (Err × St E) (Nat × St E) :=
  match ev.refreshReputation user_score s.ext with
  | .error e => .error (e, s)
  | .ok e1 =>
    let who := user_score.1
    match share cfg ev who { s with ext := e1 } with
    | .error p => .error p
    | .ok (fee, s2) =>
      let (rs', _ret) := rMutate s2.records pathfinder who
        (fun r => (r, Record.mk update_at fee))
      .ok (fee, { s2 with records := rs' })

/-- `Pallet::mutate_payroll` (lib.rs lines 271-286): `try_mutate` that
checked-adds `amount` to `total_fee` and `count` to `count` (both failing
with `Overflow`), and assigns the new `Payroll` through the reference. -/
def mutate_payroll {E : Type} (pathfinder : Nat) (amount : Nat) (count : Nat)
    (s : St E) : Except (Err × St E) (Unit × St E) :=
  match pTryMutate s.payrolls pathfinder (fun f =>
    match checkedAddB f.total_fee amount with
    | none => .error .Overflow
    | some total_fee =>
      match checkedAdd32 f.count count with
      | none => .error .Overflow
      | some count => .ok (Payroll.mk count total_fee, ())) with
  | .error e => .error (e, s)
  | .ok (ps', _) => .ok ((), { s with payrolls := ps' })

/-- The `try_fold` inside `refresh` (lib.rs lines 185-195): run `do_refresh`
per user score, checked-adding each fee into the accumulator (`Overflow` on
failure). -/
def refreshFold {E : Type} (cfg : Config) (ev : Env E) (pathfinder : Nat)
    (now : Nat) : List (Nat × Nat) → Nat → St E →
    Except (Err × St E) (Nat × St E)
  | [], acc, s => .ok (acc, s)
  | us :: rest, acc, s =>
    match do_refresh cfg ev pathfinder us now s with
    | .error p => .error p
    | .ok (fee, s1) =>
      match checkedAddB acc fee with
      | none => .error (.Overflow, s1)
      | some acc1 => refreshFold cfg ev pathfinder now rest acc1 s1

/-- `Pallet::refresh` (lib.rs lines 164-208): length gate, update-status
gate, checked staking amount, stake, per-score fold, `mutate_payroll`,
`set_last_refresh_at`.  The emitted event carries no state and is
omitted. -/
def refresh {E : Type} (cfg : Config) (ev : Env E) (pathfinder : Nat)
    (user_scores : List (Nat × Nat)) (now : Nat) (s : St E) :
    Except (Err × St E) (Unit × St E) :=
  if user_scores.length ≤ cfg.MaxUpdateCount then
    if ev.checkUpdateStatus s.ext then
      match checkedMulB cfg.UpdateStakingAmount user_scores.length with
      | none => .error (.Overflow, s)
      | some amount =>
        match ev.staking pathfinder amount s.ext with
        | .error e => .error (e, s)
        | .ok e1 =>
          match refreshFold cfg ev pathfinder now user_scores 0 { s with ext := e1 } with
          | .error p => .error p
          | .ok (total_fee, s2) =>
            match mutate_payroll pathfinder total_fee user_scores.length s2 with
            | .error p => .error p
            | .ok (_, s3) => .ok ((), { s3 with ext := ev.setLastRefreshAt s3.ext })
    else .error (.NoUpdatesAllowed, s)
  else .error (.QuantityLimitReached, s)

/-- `StartChallenge::start` (lib.rs lines 310-327): update-status gate, then
`Records::take(&target, &pathfinder)` (`ValueQuery`: yields the default
record when absent, and removes the entry), the confirmation-window check
(`ChallengeTimeout` after the take), then
`Payrolls::mutate(&pathfinder, |f| Payroll { .. })` whose Rust closure
builds the debited `Payroll` as `mutate`'s discarded return value without
assigning through the reference — embedded as a closure whose final
reference value is the unchanged input — and finally returns the taken
record's fee. -/
def start {E : Type} (cfg : Config) (ev : Env E) (target pathfinder : Nat)
    (now : Nat) (s : St E) : Except (Err × St E) (Nat × St E) :=
  if ev.checkUpdateStatus s.ext then
    let record := rGetD s.records target pathfinder
    let rs1 := rErase s.records target pathfinder
    if now < record.update_at + cfg.ConfirmationPeriod then
      let (ps1, _ret) := pMutate s.payrolls pathfinder
        (fun f => (f, Payroll.mk (f.count - 1) (f.total_fee - record.fee)))
      .ok (record.fee, { s with records := rs1, payrolls := ps1 })
    else .error (.ChallengeTimeout, { s with records := rs1 })
  else .error (.NoUpdatesAllowed, s)

/-- `Pallet::receiver_all` (lib.rs lines 211-226): `end_refresh` gate, take
the caller's payroll, release its `total_amount`, remove all of the
caller's records. -/
def receiver_all {E : Type} (cfg : Config) (ev : Env E) (pathfinder : Nat)
    (s : St E) : Except (Err × St E) (Unit × St E) :=
  match ev.endRefresh s.ext with
  | .error e => .error (e, s)
  | .ok e0 =>
    let payroll := pGet s.payrolls pathfinder
    let ps1 := aErase s.payrolls pathfinder
    match ev.release pathfinder (totalAmount cfg payroll) e0 with
    | .error e => .error (e, { ext := e0, payrolls := ps1, records := s.records })
    | .ok e1 =>
      .ok ((), { ext := e1, payrolls := ps1,
                 records := rRemoveAll s.records pathfinder })

/-- `Pallet::receiver_all_proxy` (lib.rs lines 229-253): `end_refresh` gate,
take the named pathfinder's payroll, conditional fee split
(`checked_with_fee`, `FailedProxy` when rejected), remove the pathfinder's
records, release the cut to the proxy and the remainder to the pathfinder.
The payroll is taken before the split is attempted. -/
def receiver_all_proxy {E : Type} (cfg : Config) (ev : Env E)
    (proxy pathfinder : Nat) (now : Nat) (s : St E) :
    Except (Err × St E) (Unit × St E) :=
  match ev.endRefresh s.ext with
  | .error e => .error (e, s)
  | .ok e0 =>
    let last := ev.getLastUpdateAt e0
    let payroll := pGet s.payrolls pathfinder
    let ps1 := aErase s.payrolls pathfinder
    match ev.checkedWithFee (totalAmount cfg payroll) last now with
    | none => .error (.FailedProxy, { ext := e0, payrolls := ps1, records := s.records })
    | some (proxy_fee, without_fee) =>
      let rs1 := rRemoveAll s.records pathfinder
      match ev.release proxy proxy_fee e0 with
      | .error e => .error (e, { ext := e0, payrolls := ps1, records := rs1 })
      | .ok e1 =>
        match ev.release pathfinder without_fee e1 with
        | .error e => .error (e, { ext := e1, payrolls := ps1, records := rs1 })
        | .ok e2 => .ok ((), { ext := e2, payrolls := ps1, records := rs1 })

/-- The `Payrolls::drain().try_fold` inside `new_round` (lib.rs lines
143-156): each drained entry's `total_amount` is split by the unconditional
`with_fee`, the remainder released to the pathfinder, and the proxy cut
checked-added into the accumulator (`Overflow` on failure).  `drain`
removes an entry as soon as it is yielded, so an error leaves exactly the
not-yet-visited entries in storage. -/
def newRoundFold {E : Type} (cfg : Config) (ev : Env E) :
    List (Nat × Payroll) → Nat → E →
    Except (Err × List (Nat × Payroll) × E) (Nat × E)
  | [], acc, e => .ok (acc, e)
  | (pf, pr) :: rest, acc, e =>
    match ev.release pf (ev.withFee (totalAmount cfg pr)).2 e with
    | .error er => .error (er, rest, e)
    | .ok e1 =>
      match checkedAddB acc (ev.withFee (totalAmount cfg pr)).1 with
      | none => .error (.Overflow, rest, e1)
      | some acc1 => newRoundFold cfg ev rest acc1 e1

/-- `Pallet::new_round` (lib.rs lines 127-161): Reputation-port
`new_round` gate, `is_all_harvest` gate (`ChallengeNotClaimed`),
`is_allowed_proxy` timing gate (`ChallengeTimeout`), drain every payroll
through `newRoundFold`, then release the accumulated proxy cut to the
caller. -/
def new_round {E : Type} (cfg : Config) (ev : Env E) (who : Nat) (now : Nat)
    (s : St E) : Except (Err × St E) (Unit × St E) :=
  match ev.repNewRound s.ext with
  | .error e => .error (e, s)
  | .ok e0 =>
    if ev.isAllHarvest e0 then
      if ev.isAllowedProxy (ev.getLastRefreshAt e0) now then
        match newRoundFold cfg ev s.payrolls 0 e0 with
        | .error (er, remaining, e1) =>
          .error (er, { s with payrolls := remaining, ext := e1 })
        | .ok (total_fee, e1) =>
          match ev.release who total_fee e1 with
          | .error e => .error (e, { s with payrolls := [], ext := e1 })
          | .ok e2 => .ok ((), { s with payrolls := [], ext := e2 })
      else .error (.ChallengeTimeout, { s with ext := e0 })
    else .error (.ChallengeNotClaimed, { s with ext := e0 })

/-- Records stored under first key `p`. -/
def recordsOf (p : Nat) (rs : List ((Nat × Nat) × Record)) :
    List ((Nat × Nat) × Record) := rs.filter (fun e => e.1.1 == p)

/-- Sum of the stored fees of the records under first key `p`. -/
def sumFees (p : Nat) (rs : List ((Nat × Nat) × Record)) : Nat :=
  ((recordsOf p rs).map (fun e => e.2.fee)).sum

/-- Number of records stored under first key `p`. -/
def countRecs (p : Nat) (rs : List ((Nat × Nat) × Record)) : Nat :=
  (recordsOf p rs).length

/-- A fee-collecting view of `refreshFold`: the list of fees produced by the
successive `do_refresh` calls (each fee is the value `share` returned for
that iteration), together with the state after the loop. -/
def foldFees {E : Type} (cfg : Config) (ev : Env E) (pathfinder : Nat)
    (now : Nat) : List (Nat × Nat) → St E → Option (List Nat × St E)
  | [], s => some ([], s)
  | us :: rest, s =>
    match do_refresh cfg ev pathfinder us now s with
    | .error _ => none
    | .ok (fee, s1) =>
      match foldFees cfg ev pathfinder now rest s1 with
      | none => none
      | some (fs, s2) => some (fee :: fs, s2)

theorem lookup_aErase_self {κ ν : Type} [BEq κ] [LawfulBEq κ]
    (m : List (κ × ν)) (k : κ) : (aErase m k).lookup k = none := by
  induction m with
  | nil => rfl
  | cons e t ih =>
    by_cases h : e.1 = k
    · simpa [aErase, List.filter_cons, h] using ih
    · have hb : (e.1 == k) = false := beq_eq_false_iff_ne.mpr h
      have hb' : (k == e.1) = false := beq_eq_false_iff_ne.mpr (Ne.symm h)
      simpa [aErase, List.filter_cons, hb, List.lookup, hb'] using ih

theorem lookup_aErase_ne {κ ν : Type} [BEq κ] [LawfulBEq κ]
    (m : List (κ × ν)) (k k' : κ) (h : k' ≠ k) :
    (aErase m k).lookup k' = m.lookup k' := by
  induction m with
  | nil => rfl
  | cons e t ih =>
    by_cases he : e.1 = k
    · have hb : (e.1 == k) = true := beq_iff_eq.mpr he
      have hk' : (k' == e.1) = false := beq_eq_false_iff_ne.mpr (he ▸ h)
      simpa [aErase, List.filter_cons, hb, List.lookup, hk'] using ih
    · have hb : (e.1 == k) = false := beq_eq_false_iff_ne.mpr he
      by_cases hk : k' = e.1
      · simp [aErase, List.filter_cons, hb, List.lookup, hk]
      · have hk' : (k' == e.1) = false := beq_eq_false_iff_ne.mpr hk
        simpa [aErase, List.filter_cons, hb, List.lookup, hk'] using ih

theorem lookup_aSet_self {κ ν : Type} [BEq κ] [LawfulBEq κ]
    (m : List (κ × ν)) (k : κ) (v : ν) : (aSet m k v).lookup k = some v := by
  simp [aSet, List.lookup]

theorem lookup_aSet_ne {κ ν : Type} [BEq κ] [LawfulBEq κ]
    (m : List (κ × ν)) (k k' : κ) (v : ν) (h : k' ≠ k) :
    (aSet m k v).lookup k' = m.lookup k' := by
  have hk' : (k' == k) = false := beq_eq_false_iff_ne.mpr h
  simp [aSet, List.lookup, hk', lookup_aErase_ne m k k' h]

theorem pGet_aSet_self (ps : List (Nat × Payroll)) (k : Nat) (v : Payroll) :
    pGet (aSet ps k v) k = v := by
  simp [pGet, aGet, lookup_aSet_self]

theorem pGet_aSet_ne (ps : List (Nat × Payroll)) (k k' : Nat) (v : Payroll)
    (h : k' ≠ k) : pGet (aSet ps k v) k' = pGet ps k' := by
  simp [pGet, aGet, lookup_aSet_ne ps k k' v h]

theorem rLookup_rErase_self (rs : List ((Nat × Nat) × Record)) (k₁ k₂ : Nat) :
    rLookup (rErase rs k₁ k₂) k₁ k₂ = none := by
  simp [rLookup, rErase, lookup_aErase_self]

theorem rLookup_rErase_ne (rs : List ((Nat × Nat) × Record))
    (k₁ k₂ a b : Nat) (h : (a, b) ≠ (k₁, k₂)) :
    rLookup (rErase rs k₁ k₂) a b = rLookup rs a b := by
  simp [rLookup, rErase, lookup_aErase_ne rs (k₁, k₂) (a, b) h]

theorem rLookup_aSet_self (rs : List ((Nat × Nat) × Record)) (k₁ k₂ : Nat)
    (v : Record) : rLookup (aSet rs (k₁, k₂) v) k₁ k₂ = some v := by
  simp [rLookup, lookup_aSet_self]

theorem rLookup_aSet_ne (rs : List ((Nat × Nat) × Record)) (k₁ k₂ a b : Nat)
    (v : Record) (h : (a, b) ≠ (k₁, k₂)) :
    rLookup (aSet rs (k₁, k₂) v) a b = rLookup rs a b := by
  simp [rLookup, lookup_aSet_ne rs (k₁, k₂) (a, b) v h]

theorem rLookup_rRemoveAll (rs : List ((Nat × Nat) × Record)) (p a b : Nat) :
    rLookup (rRemoveAll rs p) a b =
      if a = p then none else rLookup rs a b := by
  induction rs with
  | nil => simp [rRemoveAll, rLookup, List.lookup]
  | cons e t ih =>
    by_cases he : e.1.1 = p
    · have hb : (e.1.1 == p) = true := beq_iff_eq.mpr he
      by_cases hap : a = p
      · simpa [rRemoveAll, List.filter_cons, hb, hap] using ih
      · have hk : ((a, b) == e.1) = false := by
          have : (a, b) ≠ e.1 := by
            intro hc
            exact hap (by rw [← he, ← hc])
          exact beq_eq_false_iff_ne.mpr this
        simpa [rRemoveAll, List.filter_cons, hb, hap, rLookup, List.lookup, hk]
          using ih
    · have hb : (e.1.1 == p) = false := beq_eq_false_iff_ne.mpr he
      by_cases hk : (a, b) = e.1
      · have h1 : e.1.1 = a := by rw [← hk]
        have hap : a ≠ p := by
          rw [← h1]
          exact he
        simp [rRemoveAll, List.filter_cons, hb, rLookup, List.lookup,
          beq_iff_eq.mpr hk, hap]
      · have hk' : ((a, b) == e.1) = false := beq_eq_false_iff_ne.mpr hk
        simpa [rRemoveAll, List.filter_cons, hb, rLookup, List.lookup, hk']
          using ih

/-- `share` only touches the external state: the pallet storage is
unchanged. -/
theorem share_frame {E : Type} {cfg : Config} {ev : Env E} {u : Nat}
    {s s' : St E} {fee : Nat} (h : share cfg ev u s = .ok (fee, s')) :
    s'.payrolls = s.payrolls ∧ s'.records = s.records := by
  unfold share at h
  dsimp only at h
  split at h
  · cases h
  · split at h
    · cases h
    · split at h
      · cases h
      · cases h
        exact ⟨rfl, rfl⟩

/-- `do_refresh` leaves `Payrolls` unchanged. -/
theorem do_refresh_payrolls {E : Type} {cfg : Config} {ev : Env E}
    {p : Nat} {us : Nat × Nat} {now : Nat} {s s' : St E} {fee : Nat}
    (h : do_refresh cfg ev p us now s = .ok (fee, s')) :
    s'.payrolls = s.payrolls := by
  unfold do_refresh at h
  split at h
  · cases h
  · dsimp only at h
    split at h
    · cases h
    · rename_i e1 heq fee' s2 hsh
      cases h
      exact (share_frame hsh).1

/-- A successful `do_refresh` writes back the previously stored (or default)
record under `(pathfinder, target)` — not the freshly built one — and
returns the `share` fee. -/
theorem do_refresh_ok_shape {E : Type} {cfg : Config} {ev : Env E}
    {p : Nat} {us : Nat × Nat} {now : Nat} {s s' : St E} {fee : Nat}
    (h : do_refresh cfg ev p us now s = .ok (fee, s')) :
    ∃ e1 s2, ev.refreshReputation us s.ext = .ok e1 ∧
      share cfg ev us.1 { s with ext := e1 } = .ok (fee, s2) ∧
      s'.records = aSet s2.records (p, us.1) (rGetD s2.records p us.1) ∧
      s'.payrolls = s2.payrolls := by
  unfold do_refresh at h
  split at h
  · cases h
  · rename_i e1 heq
    dsimp only at h
    split at h
    · cases h
    · rename_i fee' s2 hsh
      cases h
      exact ⟨e1, s2, heq, hsh, rfl, rfl⟩

theorem refreshFold_foldFees {E : Type} {cfg : Config} {ev : Env E}
    {p : Nat} {now : Nat} :
    ∀ (l : List (Nat × Nat)) (acc : Nat) (s : St E) (total : Nat) (s' : St E),
      refreshFold cfg ev p now l acc s = .ok (total, s') →
      ∃ fs, foldFees cfg ev p now l s = some (fs, s') ∧ total = acc + fs.sum
  | [], acc, s, total, s', h => by
    cases h
    exact ⟨[], rfl, by simp⟩
  | us :: rest, acc, s, total, s', h => by
    unfold refreshFold at h
    split at h
    · cases h
    · rename_i fee s1 hd
      split at h
      · cases h
      · rename_i acc1 hc
        obtain ⟨fs, hfs, hsum⟩ := refreshFold_foldFees rest acc1 s1 total s' h
        have hacc : acc1 = acc + fee := by
          unfold checkedAddB at hc
          split at hc
          · cases hc
            rfl
          · cases hc
        refine ⟨fee :: fs, ?_, ?_⟩
        · simp [foldFees, hd, hfs]
        · simp only [List.sum_cons]
          omega

theorem foldFees_payrolls {E : Type} {cfg : Config} {ev : Env E}
    {p : Nat} {now : Nat} :
    ∀ (l : List (Nat × Nat)) (s : St E) (fs : List Nat) (s' : St E),
      foldFees cfg ev p now l s = some (fs, s') → s'.payrolls = s.payrolls
  | [], s, fs, s', h => by
    cases h
    rfl
  | us :: rest, s, fs, s', h => by
    unfold foldFees at h
    split at h
    · cases h
    · rename_i fee s1 hd
      split at h
      · cases h
      · rename_i fs1 s2 hrest
        cases h
        rw [foldFees_payrolls rest s1 fs1 s' hrest, do_refresh_payrolls hd]

theorem foldFees_length {E : Type} {cfg : Config} {ev : Env E}
    {p : Nat} {now : Nat} :
    ∀ (l : List (Nat × Nat)) (s : St E) (fs : List Nat) (s' : St E),
      foldFees cfg ev p now l s = some (fs, s') → fs.length = l.length
  | [], s, fs, s', h => by
    cases h
    rfl
  | us :: rest, s, fs, s', h => by
    unfold foldFees at h
    split at h
    · cases h
    · rename_i fee s1 hd
      split at h
      · cases h
      · rename_i fs1 s2 hrest
        cases h
        simp [foldFees_length rest s1 fs1 s' hrest]

/-- A concrete all-succeeding environment over a trivial external state:
every port call succeeds without effect, every social balance is `10`, the
trust set is empty, challenges are harvested, proxy timing always allowed,
the unconditional split gives the proxy nothing, the conditional split
always accepts. -/
def env1 : Env Unit where
  repNewRound := fun _ => .ok ()
  checkUpdateStatus := fun _ => true
  endRefresh := fun _ => .ok ()
  getLastRefreshAt := fun _ => 0
  getLastUpdateAt := fun _ => 0
  setLastRefreshAt := fun e => e
  refreshReputation := fun _ _ => .ok ()
  isAllHarvest := fun _ => true
  getTrustOld := fun _ _ => []
  staking := fun _ _ _ => .ok ()
  release := fun _ _ _ => .ok ()
  socialBalance := fun _ _ => 10
  batShare := fun _ _ _ _ => .ok ()
  thaw := fun _ _ _ => .ok ()
  socialStaking := fun _ _ _ => .ok ()
  isAllowedProxy := fun _ _ => true
  withFee := fun b => (0, b)
  checkedWithFee := fun b _ _ => some (0, b)

/-- `env1` with a conditional fee split that always rejects. -/
def env4 : Env Unit := { env1 with checkedWithFee := fun _ _ _ => none }

/-- A concrete configuration: `FeeRation` is 100 percent, so `share`
returns the full social balance (`10`) as the fee. -/
def cfg1 : Config where
  ShareRatio := 0
  FeeRation := 1000000000
  SelfRation := 0
  MaxUpdateCount := 10
  UpdateStakingAmount := 1
  ConfirmationPeriod := 10

/-- The empty starting state. -/
def st0 : St Unit := ⟨(), [], []⟩

/-- A state holding one record under `(target 1, pathfinder 0)` and a
payroll of two updates and fee `9` for pathfinder `0`. -/
def st3 : St Unit := ⟨(), [(0, ⟨2, 9⟩)], [((1, 0), ⟨3, 7⟩)]⟩

theorem checkedAddB_some {a b x : Nat} (h : checkedAddB a b = some x) :
    x = a + b ∧ a + b < BMAX := by
  unfold checkedAddB at h
  split at h
  · cases h
    exact ⟨rfl, by assumption⟩
  · cases h

theorem checkedAdd32_some {a b x : Nat} (h : checkedAdd32 a b = some x) :
    x = a + b ∧ a + b < U32MAX := by
  unfold checkedAdd32 at h
  split at h
  · cases h
    exact ⟨rfl, by assumption⟩
  · cases h

/-- C1.  The core payroll/record invariant fails on the code: a single
successful `refresh` by pathfinder `0` of target `1` (share fee `10`) ends
with `Payroll(0).total_fee = 10` while the sum of the stored record fees
for pathfinder `0` is `0` — `Records::mutate` in `do_refresh` builds the
new record only as the closure's discarded return value and stores the
default record, so the stored fees can never track the payroll. -/
theorem claim1_invariant_code_bug :
    refresh cfg1 env1 0 [(1, 5)] 5 st0 =
      .ok ((), ⟨(), [(0, ⟨1, 10⟩)], [((0, 1), ⟨0, 0⟩)]⟩) ∧
    (pGet [(0, (⟨1, 10⟩ : Payroll))] 0).total_fee = 10 ∧
    sumFees 0 [((0, 1), (⟨0, 0⟩ : Record))] = 0 ∧
    countRecs 0 [((0, 1), (⟨0, 0⟩ : Record))] = 1 ∧
    (10 : Nat) ≠ 0 :=
  ⟨rfl, rfl, rfl, rfl, by decide⟩

/-- C2.  After a successful `refresh` by pathfinder `0` of target `1` at
block `5` with share fee `10`, the record stored under `(0, 1)` is the
default `{ update_at := 0, fee := 0 }`, not `{ update_at := 5, fee := 10 }`
as the claim requires: the `Records::mutate` closure returns the fresh
record as `mutate`'s discarded result instead of assigning it through the
`&mut` reference.  (That the fee for the iteration really was `10` shows in
the payroll, which `mutate_payroll` updates correctly.) -/
theorem claim2_record_write_code_bug :
    refresh cfg1 env1 0 [(1, 5)] 5 st0 =
      .ok ((), ⟨(), [(0, ⟨1, 10⟩)], [((0, 1), ⟨0, 0⟩)]⟩) ∧
    rLookup [((0, 1), (⟨0, 0⟩ : Record))] 0 1 = some ⟨0, 0⟩ ∧
    (⟨0, 0⟩ : Record) ≠ ⟨5, 10⟩ :=
  ⟨rfl, rfl, by decide⟩

/-- C3.  `start(target 1, pathfinder 0)` on an in-window stored record
(`update_at 3`, fee `7`, `ConfirmationPeriod 10`, `now 5`) removes the
record and returns its fee `7`, but leaves the payroll at `(2, 9)` instead
of debiting it to `(1, 2)`: the `Payrolls::mutate` closure builds the
debited payroll only as `mutate`'s discarded return value and never assigns
it through the `&mut` reference. -/
theorem claim3_challenge_debit_code_bug :
    start cfg1 env1 1 0 5 st3 = .ok (7, ⟨(), [(0, ⟨2, 9⟩)], []⟩) ∧
    pGet [(0, (⟨2, 9⟩ : Payroll))] 0 = ⟨2, 9⟩ ∧
    (⟨2, 9⟩ : Payroll) ≠ ⟨1, 2⟩ :=
  ⟨rfl, rfl, by decide⟩

/-- A state holding a payroll for pathfinder `0` and an unrelated record,
used to exhibit the failure-atomicity violation of `receiver_all_proxy`. -/
def st4 : St Unit := ⟨(), [(0, ⟨1, 5⟩)], [((0, 2), ⟨3, 4⟩)]⟩

/-- C4, counterexample.  `receiver_all_proxy` failing with `FailedProxy`
does NOT leave the named pathfinder's payroll unchanged: the payroll is
taken (removed) before the conditional fee split is attempted, and the
error path never restores it. -/
theorem claim4_counterexample :
    receiver_all_proxy cfg1 env4 9 0 99 st4 =
      .error (.FailedProxy, ⟨(), [], [((0, 2), ⟨3, 4⟩)]⟩) ∧
    pGet [] 0 ≠ pGet st4.payrolls 0 :=
  ⟨rfl, by decide⟩

/-- C4, amended.  Failure does not roll back the named mutations: (1)
whenever `end_refresh` succeeds and the conditional fee split rejects,
`receiver_all_proxy` fails with `FailedProxy` in a state where the named
pathfinder's `Payroll` entry has already been taken (records still
untouched at that point); (2) whenever the three gates of `new_round` pass
and the drain fold fails (a release error or the proxy-cut accumulation
overflowing), `new_round` returns the fold's error with `Payrolls` holding
exactly the fold's not-yet-visited `remaining` entries; and (3) on any
fold failure `remaining` is a strict suffix of the drained list — every
entry up to and including the failure point has been removed. -/
theorem claim4_partial_commit :
    (∀ (E : Type) (cfg : Config) (ev : Env E) (proxy p now : Nat)
      (s : St E) (e0 : E),
      ev.endRefresh s.ext = .ok e0 →
      ev.checkedWithFee (totalAmount cfg (pGet s.payrolls p))
        (ev.getLastUpdateAt e0) now = none →
      receiver_all_proxy cfg ev proxy p now s =
        .error (.FailedProxy, ⟨e0, aErase s.payrolls p, s.records⟩)) ∧
    (∀ (E : Type) (cfg : Config) (ev : Env E) (who now : Nat) (s : St E)
      (e0 e1 : E) (er : Err) (remaining : List (Nat × Payroll)),
      ev.repNewRound s.ext = .ok e0 →
      ev.isAllHarvest e0 = true →
      ev.isAllowedProxy (ev.getLastRefreshAt e0) now = true →
      newRoundFold cfg ev s.payrolls 0 e0 = .error (er, remaining, e1) →
      new_round cfg ev who now s =
        .error (er, { s with payrolls := remaining, ext := e1 })) ∧
    (∀ (E : Type) (cfg : Config) (ev : Env E) (l : List (Nat × Payroll))
      (acc : Nat) (e e1 : E) (er : Err) (remaining : List (Nat × Payroll)),
      newRoundFold cfg ev l acc e = .error (er, remaining, e1) →
      ∃ pre entry, l = pre ++ entry :: remaining) := by
  refine ⟨?_, ?_, ?_⟩
  · intro E cfg ev proxy p now s e0 h1 h2
    unfold receiver_all_proxy
    rw [h1]
    dsimp only
    rw [h2]
  · intro E cfg ev who now s e0 e1 er remaining h1 h2 h3 h4
    unfold new_round
    rw [h1]
    dsimp only
    rw [h2, h3, if_pos rfl, if_pos rfl, h4]
  · intro E cfg ev l
    induction l with
    | nil =>
      intro acc e e1 er remaining h
      simp [newRoundFold] at h
    | cons hd tl ih =>
      obtain ⟨pf, pr⟩ := hd
      intro acc e e1 er remaining h
      unfold newRoundFold at h
      split at h
      · simp only [Except.error.injEq, Prod.mk.injEq] at h
        exact ⟨[], (pf, pr), by rw [h.2.1]; rfl⟩
      · split at h
        · simp only [Except.error.injEq, Prod.mk.injEq] at h
          exact ⟨[], (pf, pr), by rw [h.2.1]; rfl⟩
        · obtain ⟨pre, entry, htl⟩ := ih _ _ _ _ _ h
          exact ⟨(pf, pr) :: pre, entry, by rw [htl]; rfl⟩

/-- `env1` with a ledger whose `release` always fails. -/
def env4b : Env Unit := { env1 with release := fun _ _ _ => .error (.External 0) }

theorem claim4_witness :
    (receiver_all_proxy cfg1 env4 9 3 0 (⟨(), [(3, ⟨2, 2⟩)], []⟩ : St Unit) =
      .error (.FailedProxy, ⟨(), [], []⟩)) ∧
    (new_round cfg1 env4b 9 0
        (⟨(), [(0, ⟨1, 5⟩), (2, ⟨1, 6⟩)], []⟩ : St Unit) =
      .error (.External 0, ⟨(), [(2, ⟨1, 6⟩)], []⟩)) ∧
    (∃ pre entry, [(0, (⟨1, 5⟩ : Payroll)), (2, ⟨1, 6⟩)] =
      pre ++ entry :: [(2, (⟨1, 6⟩ : Payroll))]) :=
  ⟨claim4_partial_commit.1 Unit cfg1 env4 9 3 0 ⟨(), [(3, ⟨2, 2⟩)], []⟩ ()
     rfl rfl,
   claim4_partial_commit.2.1 Unit cfg1 env4b 9 0
     ⟨(), [(0, ⟨1, 5⟩), (2, ⟨1, 6⟩)], []⟩ () () (.External 0) [(2, ⟨1, 6⟩)]
     rfl rfl rfl rfl,
   claim4_partial_commit.2.2 Unit cfg1 env4b [(0, ⟨1, 5⟩), (2, ⟨1, 6⟩)] 0
     () () (.External 0) [(2, ⟨1, 6⟩)] rfl⟩

/-- C5, counterexample.  With `UpdateStakingAmount = 1` and a payroll of
`count = 1`, `total_fee = 2^128 - 1`, the exact drained amount
`1 * 1 + (2^128 - 1) = 2^128` exceeds the `Balance` range, yet `new_round`
succeeds instead of failing with `Overflow`: `Payroll::total_amount`
saturates. -/
theorem claim5_counterexample :
    new_round cfg1 env1 9 0 (⟨(), [(0, ⟨1, BMAX - 1⟩)], []⟩ : St Unit) =
      .ok ((), ⟨(), [], []⟩) ∧
    BMAX ≤ cfg1.UpdateStakingAmount * 1 + (BMAX - 1) ∧
    totalAmount cfg1 ⟨1, BMAX - 1⟩ = BMAX - 1 :=
  ⟨rfl, by decide, rfl⟩

/-- C5, amended.  The drained amount is computed with saturating
multiplication and addition, clamping at the maximum `Balance` and never
failing; only the accumulation of the per-entry proxy cuts across drained
entries uses checked addition and fails the whole drain with `Overflow`. -/
theorem claim5_saturating_total_amount :
    (∀ (cfg : Config) (pr : Payroll),
      totalAmount cfg pr =
        min (cfg.UpdateStakingAmount * pr.count + pr.total_fee) (BMAX - 1)) ∧
    (∀ (E : Type) (cfg : Config) (ev : Env E) (rest : List (Nat × Payroll))
      (acc : Nat) (e e1 : E) (pf : Nat) (pr : Payroll),
      ev.release pf (ev.withFee (totalAmount cfg pr)).2 e = .ok e1 →
      BMAX ≤ acc + (ev.withFee (totalAmount cfg pr)).1 →
      newRoundFold cfg ev ((pf, pr) :: rest) acc e =
        .error (.Overflow, rest, e1)) := by
  constructor
  · intro cfg pr
    unfold totalAmount satAddB satMulB
    omega
  · intro E cfg ev rest acc e e1 pf pr h1 h2
    unfold newRoundFold
    rw [h1]
    dsimp only
    have hn : checkedAddB acc (ev.withFee (totalAmount cfg pr)).1 = none := by
      unfold checkedAddB
      rw [if_neg (by omega)]
    rw [hn]

theorem claim5_witness :
    totalAmount cfg1 ⟨2, 3⟩ =
      min (cfg1.UpdateStakingAmount * 2 + 3) (BMAX - 1) ∧
    newRoundFold cfg1 env1 [(5, ⟨0, 0⟩)] BMAX () = .error (.Overflow, [], ()) :=
  ⟨claim5_saturating_total_amount.1 cfg1 ⟨2, 3⟩,
   claim5_saturating_total_amount.2 Unit cfg1 env1 [] BMAX () () 5 ⟨0, 0⟩ rfl
     (by decide)⟩

/-- C6.  `start` on a stored record whose confirmation window has elapsed
(`update_at + ConfirmationPeriod ≤ now`) fails with `ChallengeTimeout`,
and the record has nevertheless been removed: `Records::take` runs before
the window check and the error path keeps the removal. -/
theorem claim6_timeout_destroys_record {E : Type} (cfg : Config) (ev : Env E)
    (target pathfinder now : Nat) (s : St E) (r : Record)
    (hup : ev.checkUpdateStatus s.ext = true)
    (hrec : rLookup s.records target pathfinder = some r)
    (hto : r.update_at + cfg.ConfirmationPeriod ≤ now) :
    start cfg ev target pathfinder now s =
      .error (.ChallengeTimeout,
        { s with records := rErase s.records target pathfinder }) ∧
    rLookup (rErase s.records target pathfinder) target pathfinder = none := by
  refine ⟨?_, rLookup_rErase_self s.records target pathfinder⟩
  have hd : rGetD s.records target pathfinder = r := by
    simp [rGetD, hrec]
  unfold start
  dsimp only
  split
  · rw [hd, if_neg (by omega)]
  · rename_i hc
    exact absurd hup hc

theorem claim6_witness :
    start cfg1 env1 1 0 20 st3 =
      .error (.ChallengeTimeout, ⟨(), [(0, ⟨2, 9⟩)], []⟩) ∧
    rLookup ([] : List ((Nat × Nat) × Record)) 1 0 = none :=
  claim6_timeout_destroys_record cfg1 env1 1 0 20 st3 ⟨3, 7⟩ rfl rfl (by decide)

/-- A successful `mutate_payroll` adds `amount` to the stored `total_fee`
and `count` to the stored `count` (both within bounds, since the checked
additions succeeded) and touches nothing else. -/
theorem mutate_payroll_ok {E : Type} {p amount count : Nat} {s s' : St E}
    (h : mutate_payroll p amount count s = .ok ((), s')) :
    (pGet s.payrolls p).total_fee + amount < BMAX ∧
    (pGet s.payrolls p).count + count < U32MAX ∧
    s'.ext = s.ext ∧ s'.records = s.records ∧
    s'.payrolls = aSet s.payrolls p
      (Payroll.mk ((pGet s.payrolls p).count + count)
        ((pGet s.payrolls p).total_fee + amount)) := by
  unfold mutate_payroll pTryMutate at h
  dsimp only at h
  cases hca : checkedAddB (pGet s.payrolls p).total_fee amount with
  | none =>
    rw [hca] at h
    simp at h
  | some tf =>
    rw [hca] at h
    obtain ⟨htf, hba⟩ := checkedAddB_some hca
    cases hc32 : checkedAdd32 (pGet s.payrolls p).count count with
    | none =>
      rw [hc32] at h
      simp at h
    | some c =>
      rw [hc32] at h
      obtain ⟨hc, hbc⟩ := checkedAdd32_some hc32
      dsimp only at h
      simp only [Except.ok.injEq, Prod.mk.injEq, true_and] at h
      subst h htf hc
      exact ⟨hba, hbc, rfl, rfl, rfl⟩

/-- C7.  A successful `refresh` adds to the pathfinder's payroll exactly the
sum of the per-iteration fees returned by `share` (collected by `foldFees`,
whose entries are the `do_refresh`/`share` outputs in batch order) and the
batch length; starting from the payroll already stored, so the additions
accumulate across successive calls, and the checked additions guarantee
both results stay within the `Balance` and `u32` ranges (out-of-range sums
fail the call with `Overflow` instead). -/
theorem claim7_refresh_accumulates {E : Type} (cfg : Config) (ev : Env E)
    (p : Nat) (scores : List (Nat × Nat)) (now : Nat) (s s' : St E)
    (h : refresh cfg ev p scores now s = .ok ((), s')) :
    ∃ amount e1 fees sFold,
      checkedMulB cfg.UpdateStakingAmount scores.length = some amount ∧
      ev.staking p amount s.ext = .ok e1 ∧
      foldFees cfg ev p now scores { s with ext := e1 } = some (fees, sFold) ∧
      fees.length = scores.length ∧
      pGet s'.payrolls p =
        ⟨(pGet s.payrolls p).count + scores.length,
         (pGet s.payrolls p).total_fee + fees.sum⟩ ∧
      (pGet s.payrolls p).total_fee + fees.sum < BMAX ∧
      (pGet s.payrolls p).count + scores.length < U32MAX := by
  unfold refresh at h
  split at h
  · split at h
    · split at h
      · simp at h
      · rename_i amount hmul
        split at h
        · simp at h
        · rename_i e1 hstak
          split at h
          · simp at h
          · rename_i total s2 hfold
            split at h
            · simp at h
            · rename_i u s3 hmut
              simp only [Except.ok.injEq, Prod.mk.injEq, true_and] at h
              obtain ⟨fees, hff, hsum⟩ :=
                refreshFold_foldFees scores 0 { s with ext := e1 } total s2 hfold
              have hlen := foldFees_length scores { s with ext := e1 } fees s2 hff
              have hpres : s2.payrolls = s.payrolls :=
                foldFees_payrolls scores { s with ext := e1 } fees s2 hff
              obtain ⟨hba, hbc, _, _, hpay⟩ := mutate_payroll_ok hmut
              rw [hpres] at hba hbc hpay
              have hsum' : total = fees.sum := by omega
              refine ⟨amount, e1, fees, s2, hmul, hstak, hff, hlen, ?_,
                by omega, hbc⟩
              rw [← h]
              dsimp only
              rw [hpay, pGet_aSet_self, hsum']
    · simp at h
  · simp at h

theorem claim7_witness :
    ∃ amount e1 fees sFold,
      checkedMulB cfg1.UpdateStakingAmount
        ([(1, 0), (2, 0)] : List (Nat × Nat)).length = some amount ∧
      env1.staking 0 amount st0.ext = .ok e1 ∧
      foldFees cfg1 env1 0 5 [(1, 0), (2, 0)] { st0 with ext := e1 } =
        some (fees, sFold) ∧
      fees.length = ([(1, 0), (2, 0)] : List (Nat × Nat)).length ∧
      pGet [(0, (⟨2, 20⟩ : Payroll))] 0 =
        ⟨(pGet st0.payrolls 0).count +
           ([(1, 0), (2, 0)] : List (Nat × Nat)).length,
         (pGet st0.payrolls 0).total_fee + fees.sum⟩ ∧
      (pGet st0.payrolls 0).total_fee + fees.sum < BMAX ∧
      (pGet st0.payrolls 0).count +
        ([(1, 0), (2, 0)] : List (Nat × Nat)).length < U32MAX :=
  claim7_refresh_accumulates cfg1 env1 0 [(1, 0), (2, 0)] 5 st0
    ⟨(), [(0, ⟨2, 20⟩)], [((0, 2), ⟨0, 0⟩), ((0, 1), ⟨0, 0⟩)]⟩ rfl

/-- C8, counterexample.  After a successful challenge has consumed the
record for `(target 1, pathfinder 0)`, a second `start` on the same pair
does NOT fail: `Records` is a `ValueQuery` map, so the take yields the
default record with `update_at = 0`, and with `now = 5 <
ConfirmationPeriod = 10` the second call succeeds, returning fee `0`. -/
theorem claim8_counterexample :
    start cfg1 env1 1 0 5 st3 = .ok (7, ⟨(), [(0, ⟨2, 9⟩)], []⟩) ∧
    start cfg1 env1 1 0 5 (⟨(), [(0, ⟨2, 9⟩)], []⟩ : St Unit) =
      .ok (0, ⟨(), [(0, ⟨2, 9⟩)], []⟩) :=
  ⟨rfl, rfl⟩

/-- C8, amended.  A second `start` on a pair whose record is absent reads
the zero default record: it fails with `ChallengeTimeout` when
`ConfirmationPeriod ≤ now`, and otherwise succeeds returning fee `0`; in
either case the pathfinder's payroll value is unchanged (the payroll
mutate writes back the value it read), so the payroll is never debited a
second time. -/
theorem claim8_no_double_debit {E : Type} (cfg : Config) (ev : Env E)
    (target pathfinder now : Nat) (s : St E)
    (hup : ev.checkUpdateStatus s.ext = true)
    (habs : rLookup s.records target pathfinder = none) :
    (now < cfg.ConfirmationPeriod →
      ∃ s', start cfg ev target pathfinder now s = .ok (0, s') ∧
        pGet s'.payrolls pathfinder = pGet s.payrolls pathfinder) ∧
    (cfg.ConfirmationPeriod ≤ now →
      start cfg ev target pathfinder now s =
        .error (.ChallengeTimeout,
          { s with records := rErase s.records target pathfinder })) := by
  have hd : rGetD s.records target pathfinder = ⟨0, 0⟩ := by
    simp [rGetD, habs]
  constructor
  · intro hlt
    refine ⟨{ s with records := rErase s.records target pathfinder,
                     payrolls := aSet s.payrolls pathfinder (pGet s.payrolls pathfinder) },
            ?_, ?_⟩
    · unfold start
      dsimp only
      split
      · rw [hd]
        split
        · rfl
        · rename_i hcond
          dsimp only at hcond
          omega
      · rename_i hc
        exact absurd hup hc
    · exact pGet_aSet_self s.payrolls pathfinder (pGet s.payrolls pathfinder)
  · intro hge
    unfold start
    dsimp only
    split
    · rw [hd]
      split
      · rename_i hcond
        dsimp only at hcond
        omega
      · rfl
    · rename_i hc
      exact absurd hup hc

theorem claim8_witness :
    ∃ s', start cfg1 env1 1 0 5 (⟨(), [(0, ⟨2, 9⟩)], []⟩ : St Unit) =
        .ok (0, s') ∧
      pGet s'.payrolls 0 = pGet [(0, (⟨2, 9⟩ : Payroll))] 0 :=
  (claim8_no_double_debit cfg1 env1 1 0 5 ⟨(), [(0, ⟨2, 9⟩)], []⟩
    rfl rfl).1 (by decide)

/-- C9.  Whenever the Reputation port accepts the round transition but the
Challenge Ledger port reports unharvested challenges, `new_round` fails
with `ChallengeNotClaimed` — for every caller, every current block number
and every proxy-timing predicate, since the harvest gate precedes the
timing gate. -/
theorem claim9_outstanding_blocks_round {E : Type} (cfg : Config)
    (ev : Env E) (who now : Nat) (s : St E) (e0 : E)
    (h1 : ev.repNewRound s.ext = .ok e0)
    (h2 : ev.isAllHarvest e0 = false) :
    new_round cfg ev who now s =
      .error (.ChallengeNotClaimed, { s with ext := e0 }) := by
  unfold new_round
  rw [h1]
  dsimp only
  rw [h2]
  simp

/-- `env1` with unharvested challenges outstanding. -/
def env9 : Env Unit := { env1 with isAllHarvest := fun _ => false }

theorem claim9_witness :
    new_round cfg1 env9 9 0 st0 = .error (.ChallengeNotClaimed, st0) :=
  claim9_outstanding_blocks_round cfg1 env9 9 0 st0 () rfl rfl

/-- C10.  The storage entry `start(t, p)` takes is keyed `(t, p)` — the
transposed key of the entry `(p, t)` that a refresh by pathfinder `p` for
target `t` writes and that `receiver_all`'s whole-prefix removal deletes;
for `p ≠ t`, `start` leaves the `(p, t)` entry untouched. -/
theorem claim10_transposed_keys {E : Type} (cfg : Config) (ev : Env E)
    (p t now : Nat) (s : St E) (hne : p ≠ t) :
    (∀ fee s', start cfg ev t p now s = .ok (fee, s') →
      rLookup s'.records p t = rLookup s.records p t ∧
      rLookup s'.records t p = none) ∧
    (∀ sc fee s', do_refresh cfg ev p (t, sc) now s = .ok (fee, s') →
      rLookup s'.records t p = rLookup s.records t p ∧
      (rLookup s'.records p t).isSome = true) ∧
    (∀ s', receiver_all cfg ev p s = .ok ((), s') →
      rLookup s'.records p t = none ∧
      rLookup s'.records t p = rLookup s.records t p) := by
  have hpt : ((p : Nat), (t : Nat)) ≠ (t, p) := by
    intro hc
    injection hc with h1 h2
    exact hne h1
  have htp : ((t : Nat), (p : Nat)) ≠ (p, t) := by
    intro hc
    injection hc with h1 h2
    exact hne h1.symm
  refine ⟨?_, ?_, ?_⟩
  · intro fee s' h
    unfold start at h
    dsimp only at h
    split at h
    · split at h
      · simp only [Except.ok.injEq, Prod.mk.injEq] at h
        obtain ⟨hf, hs'⟩ := h
        subst hs'
        exact ⟨rLookup_rErase_ne s.records t p p t hpt,
               rLookup_rErase_self s.records t p⟩
      · simp at h
    · simp at h
  · intro sc fee s' h
    obtain ⟨e1, s2, hrep, hsh, hrec, hpay⟩ := do_refresh_ok_shape h
    have hsr : s2.records = s.records := (share_frame hsh).2
    rw [hsr] at hrec
    constructor
    · rw [hrec]
      exact rLookup_aSet_ne s.records p t t p (rGetD s.records p t) htp
    · rw [hrec, rLookup_aSet_self]
      rfl
  · intro s' h
    unfold receiver_all at h
    split at h
    · simp at h
    · dsimp only at h
      split at h
      · simp at h
      · simp only [Except.ok.injEq, Prod.mk.injEq, true_and] at h
        subst h
        constructor
        · rw [rLookup_rRemoveAll]
          simp
        · rw [rLookup_rRemoveAll, if_neg (Ne.symm hne)]

theorem claim10_witness :
    rLookup ([] : List ((Nat × Nat) × Record)) 0 1 =
      rLookup st3.records 0 1 ∧
    rLookup ([] : List ((Nat × Nat) × Record)) 1 0 = none :=
  (claim10_transposed_keys cfg1 env1 0 1 5 st3 (by decide)).1 7
    ⟨(), [(0, ⟨2, 9⟩)], []⟩ rfl
